import Mathlib

/-!
Verification of the tabu-search multi-dimensional knapsack engine.

The definitions below are a shallow embedding of the Python sources
`knapsack/knapsack.py`, `knapsack/tabu.py` and `knapsack/neighborhood.py`.
Machine conventions used throughout:
* Python integers are modelled as `Int` (they are unbounded in the source).
* Python structural equality (`Item.__eq__`, `Movement.__eq__`, tuple keys)
  coincides with Lean propositional equality on the corresponding structures,
  so `x in xs` becomes list membership with decidable equality.
* `random`-based functions are parametrised by an explicit oracle (`RNG`)
  whose draws replace the calls to `random()`, `choice`, `sample`,
  `shuffle` and `randint`; the consumption order mirrors the source.
* The float `Item.ratio` (value / (weight+volume)) is modelled with exact
  rationals; it is only ever used as an ordering key.
* The wall-clock budget of `TabuSearch.__call__` is modelled by a fuel
  counter checked at the same loop boundary as the `perf_counter` test.
-/

/-- `Item` from knapsack.py: name, value, and the two cost dimensions.
Equality in the source compares all four fields, which is exactly
structural equality here. -/
structure Item where
  name : String
  value : Int
  weight : Int
  volume : Int
deriving DecidableEq, Repr, Inhabited

/-- `Item.ratio` (density), modelled with exact rationals in place of
Python floats; used only as a sort key. -/
def ratioQ (it : Item) : ℚ :=
  Rat.divInt it.value (it.weight + it.volume)

/-- `Movement` from knapsack.py: items to add and items to remove. -/
structure Movement where
  add_items : List Item
  remove_items : List Item
deriving DecidableEq, Repr, Inhabited

/-- `Movement.movement_avaliation`: sum of added values minus sum of
removed values (the `reduce` over an empty list is 0 in the source). -/
def Movement.movement_avaliation (m : Movement) : Int :=
  (m.add_items.map Item.value).sum - (m.remove_items.map Item.value).sum

/-- `Movement.reverse`: swap the two item lists. -/
def Movement.reverse (m : Movement) : Movement :=
  Movement.mk m.remove_items m.add_items

/-- The mutable `Knapsack` object state: initial capacities, remaining
capacities, tracked total value, selected items, available items and the
move-history log (`moves_made`). The `tabu_list` attribute injected via
kwargs by the caller is threaded separately through the driver. -/
structure Knapsack where
  initial_weight : Int
  initial_volume : Int
  weight : Int
  volume : Int
  value : Int
  items : List Item
  all_items : List Item
  moves_made : List Movement
deriving DecidableEq, Repr

/-- `Knapsack.__contains__`: structural membership in the selected items. -/
def kn_contains (k : Knapsack) (it : Item) : Bool :=
  decide (it ∈ k.items)

/-- `Knapsack.can_add_item`: enough remaining capacity in both dimensions
and the item is not already selected. -/
def can_add_item (k : Knapsack) (it : Item) : Bool :=
  decide (it.weight ≤ k.weight ∧ it.volume ≤ k.volume ∧ it ∉ k.items)

/-- `Knapsack.add_item`: on success append to `items`, update the three
totals, and delete every structurally equal copy from `all_items`.
The inner re-check of membership from the source is kept verbatim
(it is unreachable because `can_add_item` already tests membership). -/
def add_item (k : Knapsack) (it : Item) : Knapsack × Bool :=
  if can_add_item k it then
    if it ∈ k.items then (k, false)
    else
      ({ k with items := k.items ++ [it],
                weight := k.weight - it.weight,
                volume := k.volume - it.volume,
                value := k.value + it.value,
                all_items := k.all_items.filter (fun i => !decide (i = it)) },
       true)
  else (k, false)

/-- `Knapsack.remove_item`: find the first structurally equal entry of
`items`; if present, restore the totals by its fields, erase it, and
append it to `all_items` only when no equal entry is already there.
Since equality is structural, the entry found equals `it` field-for-field. -/
def remove_item (k : Knapsack) (it : Item) : Knapsack × Bool :=
  if it ∈ k.items then
    ({ k with weight := k.weight + it.weight,
              volume := k.volume + it.volume,
              value := k.value - it.value,
              items := k.items.erase it,
              all_items := if it ∈ k.all_items then k.all_items
                           else k.all_items ++ [it] },
     true)
  else (k, false)

/-- `Knapsack.can_swap`: `inside_item` selected, `another_item` not
selected, the outsider fits in the capacity hypothetically freed by the
insider, and the swap strictly increases the total value. -/
def can_swap (k : Knapsack) (inside_item another_item : Item) : Bool :=
  if inside_item ∉ k.items ∨ another_item ∈ k.items then false
  else
    let new_weight := k.weight + inside_item.weight
    let new_volume := k.volume + inside_item.volume
    if another_item.weight ≤ new_weight ∧ another_item.volume ≤ new_volume then
      decide (k.value < k.value - inside_item.value + another_item.value)
    else false

/-- `Knapsack.evaluate_swap` just forwards to `can_swap` (and therefore
returns a boolean, not a value). -/
def evaluate_swap (k : Knapsack) (it another : Item) : Bool :=
  can_swap k it another

/-- `Knapsack._cleanup_all_items`: drop from `all_items` every entry that
is structurally present in `items`. -/
def cleanup_all_items (k : Knapsack) : Knapsack :=
  { k with all_items := k.all_items.filter (fun it => !decide (it ∈ k.items)) }

/-- The validation walk of `execute_movement` over `add_items`
(knapsack.py lines 156-168): each item must not be in the post-removal
list `temp_items`, must not be in the current `items`, and must fit in
the running simulated capacities, which are then decremented. -/
def check_adds : List Item → List Item → List Item → Int → Int → Bool
  | [], _, _, _, _ => true
  | a :: rest, temp_items, cur_items, tw, tv =>
    if a ∈ temp_items then false
    else if a ∈ cur_items then false
    else if tw < a.weight ∨ tv < a.volume then false
    else check_adds rest temp_items cur_items (tw - a.weight) (tv - a.volume)

/-- The removal phase of `execute_movement`: `remove_item` on each entry
in order, discarding the returned flags as the source does. -/
def do_removals (k : Knapsack) (rm : List Item) : Knapsack :=
  rm.foldl (fun kk it => (remove_item kk it).1) k

/-- Rollback step shared by the failure paths of `execute_movement`:
remove again every successfully added item that is still selected. -/
def rollback_adds (k : Knapsack) (added : List Item) : Knapsack :=
  added.foldl (fun kk it => if it ∈ kk.items then (remove_item kk it).1 else kk) k

/-- Rollback step: re-add via `add_item` every removed item that is no
longer selected, ignoring a failure of `add_item` (the source only
prints an error in that case). -/
def rollback_removed (k : Knapsack) (removed : List Item) : Knapsack :=
  removed.foldl
    (fun kk it => if it ∉ kk.items then (add_item kk it).1 else kk) k

/-- Rollback used when `can_add_item` or `add_item` fails mid-execution
(knapsack.py lines 183-193 and 229-236). -/
def rollback (k : Knapsack) (added removed : List Item) : Knapsack :=
  rollback_removed (rollback_adds k added) removed

/-- The manual state restoration of knapsack.py lines 209-223, used when
`add_item` fails during the duplicate-item rollback path: append the
item, adjust the three totals directly, and erase one matching entry
from `all_items` if present (the `actual_item` found by structural
lookup has the same fields as `it`). -/
def force_restore (k : Knapsack) (it : Item) : Knapsack :=
  { k with items := k.items ++ [it],
           weight := k.weight - it.weight,
           volume := k.volume - it.volume,
           value := k.value + it.value,
           all_items := k.all_items.erase it }

/-- Rollback of removed items with the manual fallback (lines 201-223). -/
def rollback_removed_force (k : Knapsack) (removed : List Item) : Knapsack :=
  removed.foldl
    (fun kk it =>
      if it ∉ kk.items then
        (if (add_item kk it).2 then (add_item kk it).1 else force_restore kk it)
      else kk) k

/-- Rollback used on the defensive duplicate-membership path
(knapsack.py lines 195-224). -/
def rollbackB (k : Knapsack) (added removed : List Item) : Knapsack :=
  rollback_removed_force (rollback_adds k added) removed

/-- The execution walk over `add_items` (knapsack.py lines 179-236):
re-check `can_add_item` and membership defensively, add, track the added
prefix, and roll everything back on any failure. -/
def do_adds : Knapsack → List Item → List Item → List Item → Knapsack × Bool
  | k, [], _, _ => (k, true)
  | k, a :: rest, added, removed =>
    if !(can_add_item k a) then (rollback k added removed, false)
    else if a ∈ k.items then (rollbackB k added removed, false)
    else
      if (add_item k a).2 then do_adds (add_item k a).1 rest (added ++ [a]) removed
      else (rollback k added removed, false)

/-- `Knapsack.execute_movement`: validate the whole movement (removals
all selected; simulated post-removal capacities recomputed from the
initial capacities; no structural duplicates among the additions; greedy
in-order fit check), then clean up `all_items`, perform the removals and
perform the additions with rollback on unexpected failure.  The source's
local variables `temp_items`, `temp_weight` and `temp_volume` are
inlined here. -/
def execute_movement (k : Knapsack) (m : Movement) : Knapsack × Bool :=
  if ¬ (∀ it ∈ m.remove_items, it ∈ k.items) then (k, false)
  else if ¬ m.add_items.Nodup then (k, false)
  else if ¬ (check_adds m.add_items
      (k.items.filter (fun it => !decide (it ∈ m.remove_items))) k.items
      (k.initial_weight -
        ((k.items.filter (fun it => !decide (it ∈ m.remove_items))).map
          Item.weight).sum)
      (k.initial_volume -
        ((k.items.filter (fun it => !decide (it ∈ m.remove_items))).map
          Item.volume).sum) = true) then (k, false)
  else
    do_adds (do_removals (cleanup_all_items k) m.remove_items)
      m.add_items [] m.remove_items

/-- `TabuList` from tabu.py: a list with a fixed capacity `size`. -/
structure TabuList where
  size : Nat
  entries : List Movement
deriving DecidableEq, Repr

/-- `TabuList.append`: when the list is exactly at capacity, pop the
oldest entry (the head) before appending at the tail. -/
def TabuList.push (t : TabuList) (m : Movement) : TabuList :=
  if t.entries.length = t.size then
    { t with entries := t.entries.tail ++ [m] }
  else { t with entries := t.entries ++ [m] }

/-- `TabuList.__contains__`: structural membership among the entries. -/
def tabu_contains (t : TabuList) (m : Movement) : Bool :=
  decide (m ∈ t.entries)

/-- Stable insertion: place `a` before the first element it may precede.
`le a b` reads "a may come before b". -/
def ordInsert {α : Type} (le : α → α → Bool) (a : α) : List α → List α
  | [] => [a]
  | b :: l => if le a b then a :: b :: l else b :: ordInsert le a l

/-- Stable insertion sort.  A stable sort's output is unique for a fixed
total preorder, so this coincides with Python's stable `sorted`. -/
def insSort {α : Type} (le : α → α → Bool) : List α → List α
  | [] => []
  | a :: l => ordInsert le a (insSort le l)

/-- `TabuSearch.sort_moves`: stable sort by descending
`movement_avaliation` (Python `sorted(..., reverse=True)` is stable:
elements with equal keys keep their original order). -/
def sort_moves (moves : List Movement) : List Movement :=
  insSort
    (fun a b => Movement.movement_avaliation b ≤ Movement.movement_avaliation a)
    moves

/-- tabu.py line 35: for each tabu entry in order, remove the first
occurrence of its reverse from the candidate list when present. -/
def remove_tabus (moves : List Movement) (t : TabuList) : List Movement :=
  t.entries.foldl (fun ms tb => ms.erase (Movement.reverse tb)) moves

/-- The `reduce` of tabu.py line 63: fold from the first entry keeping
the argument with the strictly larger avaliation (ties keep the later).
The source raises on an empty list; the default value is never used in
the runs modelled here. -/
def best_of_tabu : List Movement → Movement
  | [] => Movement.mk [] []
  | x :: xs =>
    xs.foldl
      (fun a b =>
        if Movement.movement_avaliation a > Movement.movement_avaliation b
        then a else b) x

/-- The `while` loop of `TabuSearch.__call__` (tabu.py lines 43-84),
with the wall-clock test replaced by a fuel counter checked at the same
loop boundary.  Arguments: fuel, knapsack, tabu list, current candidate
list, best value, best items snapshot, best moves snapshot.  When the
fuel runs out, the Terminated restore of lines 82-84 assigns the best
value, items and move history back onto the knapsack (and nothing else). -/
def tabu_loop (nf : Knapsack → List Movement) :
    Nat → Knapsack → TabuList → List Movement → Int → List Item →
    List Movement → Knapsack × TabuList
  | 0, k, t, _, bs, bi, bm =>
    ({ k with value := bs, items := bi, moves_made := bm }, t)
  | fuel+1, k, t, sm, bs, bi, bm =>
    match sm with
    | c :: rest =>
      let actual := k.value + Movement.movement_avaliation c
      let r := execute_movement k c
      if r.2 then
        let t2 := t.push (Movement.reverse c)
        let bs2 := if actual > bs then actual else bs
        let bi2 := if actual > bs then r.1.items else bi
        let bm2 := if actual > bs then r.1.moves_made else bm
        let sm2 := remove_tabus (sort_moves (nf r.1)) t2
        tabu_loop nf fuel r.1 t2 sm2 bs2 bi2 bm2
      else
        tabu_loop nf fuel r.1 t rest bs bi bm
    | [] =>
      let bt := best_of_tabu t.entries
      if Movement.movement_avaliation bt > 0 then
        let actual := k.value + Movement.movement_avaliation bt
        let bs2 := if actual > bs then actual else bs
        let bi2 := if actual > bs then k.items else bi
        let bm2 := if actual > bs then k.moves_made else bm
        let r := execute_movement k bt
        let sm2 := remove_tabus (sort_moves (nf r.1)) t
        tabu_loop nf fuel r.1 t sm2 bs2 bi2 bm2
      else
        let sm2 := remove_tabus (sort_moves (nf k)) t
        tabu_loop nf fuel k t sm2 bs bi bm

/-- `TabuSearch.__call__` entry (tabu.py lines 31-41): generate and
filter the first candidate list, seed the best snapshot from the current
state, then run the loop. -/
def tabu_search (nf : Knapsack → List Movement) (fuel : Nat) (k : Knapsack)
    (t : TabuList) : Knapsack × TabuList :=
  let sm := remove_tabus (sort_moves (nf k)) t
  tabu_loop nf fuel k t sm k.value k.items k.moves_made

/-- `Knapsack.sorted_items`: stable sort by descending density. -/
def sorted_items (its : List Item) : List Item :=
  insSort (fun a b => ratioQ b ≤ ratioQ a) its

/-- Inner loop of `first_improving_neighborhood` over the sorted selected
items.  `new_value` receives the boolean returned by `evaluate_swap`; the
source then compares it against the integer `knapsack.value`, so the
Python bool is coerced to 0 or 1 exactly as modelled here.  Returns the
accumulated list and whether the early return of line 59 was taken. -/
def fi_scan (k : Knapsack) (item : Item) :
    List Item → List Movement → List Movement × Bool
  | [], acc => (acc, false)
  | s :: rest, acc =>
    if can_swap k s item then
      let new_value := evaluate_swap k s item
      let movement := Movement.mk [item] [s]
      if (if new_value then (1 : Int) else 0) > k.value then
        (acc ++ [movement], true)
      else fi_scan k item rest (acc ++ [movement])
    else fi_scan k item rest acc

/-- Outer loop of `first_improving_neighborhood` over the sorted
available items; an early return from the inner loop returns the whole
accumulated list immediately. -/
def fi_outer (k : Knapsack) : List Item → List Movement → List Movement
  | [], acc => acc
  | it :: rest, acc =>
    let r := fi_scan k it (sorted_items k.items) acc
    if r.2 then r.1 else fi_outer k rest r.1

/-- `first_improving_neighborhood` from neighborhood.py lines 47-63. -/
def first_improving_neighborhood (k : Knapsack) : List Movement :=
  fi_outer k (sorted_items k.all_items) []

/-- Randomness oracle: `qs` are the draws of `random()` (rationals in
[0,1)), `ns` drive `choice`, `sample`, `shuffle` and `randint`.  An
exhausted stream yields 0. -/
structure RNG where
  qs : List ℚ
  ns : List Nat
deriving Repr

/-- Draw the next `random()` value. -/
def nextQ : RNG → ℚ × RNG
  | ⟨[], ns⟩ => (0, ⟨[], ns⟩)
  | ⟨q :: qs, ns⟩ => (q, ⟨qs, ns⟩)

/-- Draw the next index-style value. -/
def nextN : RNG → Nat × RNG
  | ⟨qs, []⟩ => (0, ⟨qs, []⟩)
  | ⟨qs, n :: ns⟩ => (n, ⟨qs, ns⟩)

/-- `random.choice`: pick the element at an oracle-chosen position.
The source raises on an empty list; callers guard non-emptiness. -/
def choiceR {α : Type} [Inhabited α] (g : RNG) (l : List α) : α × RNG :=
  let p := nextN g
  (l.getD (p.1 % l.length) default, p.2)

/-- Draw-without-replacement driver for `shuffle` and `sample`: take
`fuel` elements, each at an oracle-chosen position of the remainder. -/
def shuffleGo {α : Type} [Inhabited α] : Nat → RNG → List α → List α × RNG
  | 0, g, _ => ([], g)
  | _+1, g, [] => ([], g)
  | fuel+1, g, l =>
    let p := nextN g
    let i := p.1 % l.length
    let r := shuffleGo fuel p.2 (l.eraseIdx i)
    (l.getD i default :: r.1, r.2)

/-- `random.shuffle` (applied to a fresh copy, as the callers do). -/
def shuffleR {α : Type} [Inhabited α] (g : RNG) (l : List α) : List α × RNG :=
  shuffleGo l.length g l

/-- `random.sample(l, n)`: `n` distinct positions, oracle-ordered. -/
def sampleR {α : Type} [Inhabited α] (g : RNG) (l : List α) (n : Nat) :
    List α × RNG :=
  shuffleGo n g l

/-- `max(iterable, key=...)`: first element with the maximal key. -/
def maxByAval : List Movement → Movement
  | [] => Movement.mk [] []
  | x :: xs =>
    xs.foldl
      (fun a b =>
        if Movement.movement_avaliation b > Movement.movement_avaliation a
        then b else a) x

/-- `_tournament_selection`: sample `min(tournament_size, len)` members
and keep the fittest. -/
def tournament_selection (g : RNG) (population : List Movement)
    (tsize : Nat) : Movement × RNG :=
  let s := sampleR g population (min tsize population.length)
  (maxByAval s.1, s.2)

/-- The first-occurrence deduplication loops of `_crossover`. -/
def dedupFirst (l : List Item) : List Item :=
  l.foldl (fun acc it => if it ∈ acc then acc else acc ++ [it]) []

/-- `_crossover`: include each parent's two sets with probability 1/2
each (four `random()` draws in source order), deduplicate structurally,
then drop from the additions any item also slated for removal. -/
def crossoverR (g : RNG) (p1 p2 : Movement) : Movement × RNG :=
  let d1 := nextQ g
  let adds1 := if d1.1 < mkRat 1 2 then p1.add_items else []
  let d2 := nextQ d1.2
  let adds2 := adds1 ++ (if d2.1 < mkRat 1 2 then p2.add_items else [])
  let d3 := nextQ d2.2
  let rems1 := if d3.1 < mkRat 1 2 then p1.remove_items else []
  let d4 := nextQ d3.2
  let rems2 := rems1 ++ (if d4.1 < mkRat 1 2 then p2.remove_items else [])
  let addsD := dedupFirst adds2
  let remsD := dedupFirst rems2
  (Movement.mk (addsD.filter (fun it => !decide (it ∈ remsD))) remsD, d4.2)

/-- `_mutate`: the four probabilistic edits in source order.  Each
`random()` draw happens before the conjunct on list emptiness, exactly
as Python evaluates `random() < p and len(l) > 0`. -/
def mutateR (g : RNG) (m : Movement) (k : Knapsack) : Movement × RNG :=
  let d1 := nextQ g
  let s1 :=
    if d1.1 < mkRat 1 2 ∧ k.all_items ≠ [] then
      let c := choiceR d1.2 k.all_items
      if c.1 ∉ m.add_items then
        (Movement.mk (m.add_items ++ [c.1])
          (m.remove_items.filter (fun r => !decide (r = c.1))), c.2)
      else (m, c.2)
    else (m, d1.2)
  let d2 := nextQ s1.2
  let s2 :=
    if d2.1 < mkRat 1 2 ∧ k.items ≠ [] then
      let c := choiceR d2.2 k.items
      if c.1 ∉ s1.1.remove_items then
        (Movement.mk (s1.1.add_items.filter (fun a => !decide (a = c.1)))
          (s1.1.remove_items ++ [c.1]), c.2)
      else (s1.1, c.2)
    else (s1.1, d2.2)
  let d3 := nextQ s2.2
  let s3 :=
    if d3.1 < mkRat 3 10 ∧ s2.1.add_items ≠ [] then
      let p := nextN d3.2
      (Movement.mk (s2.1.add_items.eraseIdx (p.1 % s2.1.add_items.length))
        s2.1.remove_items, p.2)
    else (s2.1, d3.2)
  let d4 := nextQ s3.2
  if d4.1 < mkRat 3 10 ∧ s3.1.remove_items ≠ [] then
    let p := nextN d4.2
    (Movement.mk s3.1.add_items
      (s3.1.remove_items.eraseIdx (p.1 % s3.1.remove_items.length)), p.2)
  else (s3.1, d4.2)

/-- The walk over `add_items` of `_is_valid_movement` (neighborhood.py
lines 294-314): look up each addition in `temp_all_items` by its four
fields (structural equality), check `can_add_item` against the scratch
knapsack and update it manually. -/
def valid_adds_walk (temp_all_items : List Item) :
    Knapsack → List Item → Bool
  | _, [] => true
  | tk, o :: rest =>
    match temp_all_items.find? (fun t => decide (t = o)) with
    | none => false
    | some t =>
      if !(can_add_item tk t) then false
      else
        valid_adds_walk temp_all_items
          { tk with items := tk.items ++ [t],
                    weight := tk.weight - t.weight,
                    volume := tk.volume - t.volume,
                    value := tk.value + t.value } rest

/-- `_is_valid_movement` (neighborhood.py lines 243-316).  Note that the
locals `temp_weight`/`temp_volume` computed at lines 255-259 of the
source are dead: the scratch knapsack starts from the full initial
capacities and only subtracts the remaining selected items that have a
structural match inside `temp_all_items` (which, for a state whose
`selected` and `available` are disjoint, is none of them). -/
def is_valid_movement (m : Movement) (k : Knapsack) : Bool :=
  if ¬ (∀ it ∈ m.remove_items, it ∈ k.items) then false
  else
    let temp_items := k.items.filter (fun it => !decide (it ∈ m.remove_items))
    let temp_all_items :=
      m.add_items.foldl
        (fun acc it => if it ∈ acc then acc else acc ++ [it]) k.all_items
    let tk0 : Knapsack :=
      { initial_weight := k.initial_weight, initial_volume := k.initial_volume,
        weight := k.initial_weight, volume := k.initial_volume, value := 0,
        items := [], all_items := temp_all_items, moves_made := [] }
    let stepped :=
      temp_items.foldl
        (fun tk orig =>
          match temp_all_items.find? (fun t => decide (t = orig)) with
          | some t =>
            { tk with items := tk.items ++ [t],
                      weight := tk.weight - t.weight,
                      volume := tk.volume - t.volume,
                      value := tk.value + t.value }
          | none => tk) tk0
    valid_adds_walk temp_all_items stepped m.add_items

/-- The proposal loop of `_initialize_population` (lines 139-162), with
the attempt budget as structural fuel; the 40/30/30 action split reads
one `random()` draw per iteration, `elif` semantics preserved. -/
def init_pop_loop (k : Knapsack) (avail cur : List Item) (size : Nat) :
    Nat → RNG → List Movement → List Movement × RNG
  | 0, g, pop => (pop, g)
  | att+1, g, pop =>
    if pop.length ≥ size then (pop, g)
    else
      let d := nextQ g
      if d.1 < mkRat 2 5 ∧ avail ≠ [] then
        let c := choiceR d.2 avail
        if can_add_item k c.1 then
          init_pop_loop k avail cur size att c.2 (pop ++ [Movement.mk [c.1] []])
        else init_pop_loop k avail cur size att c.2 pop
      else if d.1 < mkRat 7 10 ∧ cur ≠ [] then
        let c := choiceR d.2 cur
        if kn_contains k c.1 then
          init_pop_loop k avail cur size att c.2 (pop ++ [Movement.mk [] [c.1]])
        else init_pop_loop k avail cur size att c.2 pop
      else if avail ≠ [] ∧ cur ≠ [] then
        let ca := choiceR d.2 avail
        let cr := choiceR ca.2 cur
        if kn_contains k cr.1 ∧ can_swap k cr.1 ca.1 then
          init_pop_loop k avail cur size att cr.2
            (pop ++ [Movement.mk [ca.1] [cr.1]])
        else init_pop_loop k avail cur size att cr.2 pop
      else init_pop_loop k avail cur size att d.2 pop

/-- `_initialize_population` (lines 128-168): shuffle copies of the two
item collections, run the proposal loop with budget `size * 10`, then
pad any shortfall with empty movements. -/
def init_population (g : RNG) (k : Knapsack) (size : Nat) :
    List Movement × RNG :=
  let sa := shuffleR g k.all_items
  let sc := shuffleR sa.2 k.items
  let r := init_pop_loop k sa.1 sc.1 size (size * 10) sc.2 []
  (r.1 ++ List.replicate (size - r.1.length) (Movement.mk [] []), r.2)

/-- The offspring loop of one generation (lines 97-115), with the
attempt budget as fuel: two tournament selections, crossover with
probability `crossover_rate`, mutation with probability
`mutation_rate`, and the `_is_valid_movement` filter. -/
def gen_loop (k : Knapsack) (population : List Movement) (psize : Nat)
    (mutation_rate crossover_rate : ℚ) :
    Nat → RNG → List Movement → List Movement × RNG
  | 0, g, np => (np, g)
  | att+1, g, np =>
    if np.length ≥ psize then (np, g)
    else
      let t1 := tournament_selection g population 3
      let t2 := tournament_selection t1.2 population 3
      let dc := nextQ t2.2
      let ch :=
        if dc.1 < crossover_rate then crossoverR dc.2 t1.1 t2.1
        else (t1.1, dc.2)
      let dm := nextQ ch.2
      let ch2 :=
        if dm.1 < mutation_rate then mutateR dm.2 ch.1 k else (ch.1, dm.2)
      if is_valid_movement ch2.1 k then
        gen_loop k population psize mutation_rate crossover_rate att ch2.2
          (np ++ [ch2.1])
      else
        gen_loop k population psize mutation_rate crossover_rate att ch2.2 np

/-- The elite-copy padding loop (lines 118-119), fueled by the target
population size; each iteration consumes one `choice` draw. -/
def pad_elites (sorted_pop : List Movement) (esize psize : Nat) :
    Nat → RNG → List Movement → List Movement × RNG
  | 0, g, np => (np, g)
  | fuel+1, g, np =>
    if np.length < psize ∧ sorted_pop ≠ [] then
      let c := choiceR g (sorted_pop.take esize)
      pad_elites sorted_pop esize psize fuel c.2 (np ++ [c.1])
    else (np, g)

/-- One generation of `genetic_algorithm_neighborhood` (lines 83-121):
sort by fitness, keep the top 20 percent (`int(psize * 0.2)` computed in
exact arithmetic, at least 1), refill by offspring, pad with elites. -/
def ga_one_gen (k : Knapsack) (psize : Nat)
    (mutation_rate crossover_rate : ℚ) (g : RNG)
    (population : List Movement) : List Movement × RNG :=
  let sorted_pop := sort_moves population
  let esize := max 1 (psize * 2 / 10)
  let r := gen_loop k sorted_pop psize mutation_rate crossover_rate
    (psize * 10) g (sorted_pop.take esize)
  pad_elites sorted_pop esize psize psize r.2 r.1

/-- The generation loop of `genetic_algorithm_neighborhood`. -/
def ga_generations (k : Knapsack) (psize : Nat)
    (mutation_rate crossover_rate : ℚ) :
    Nat → RNG → List Movement → List Movement × RNG
  | 0, g, pop => (pop, g)
  | n+1, g, pop =>
    let r := ga_one_gen k psize mutation_rate crossover_rate g pop
    ga_generations k psize mutation_rate crossover_rate n r.2 r.1

/-- `genetic_algorithm_neighborhood` (neighborhood.py lines 66-125):
initialise a population, evolve it for `generations` rounds, and return
the final population sorted by descending fitness. -/
def genetic_algorithm_neighborhood (g : RNG) (k : Knapsack)
    (population_size generations : Nat)
    (mutation_rate crossover_rate : ℚ) : List Movement × RNG :=
  let p0 := init_population g k population_size
  let pf := ga_generations k population_size mutation_rate crossover_rate
    generations p0.2 p0.1
  (sort_moves pf.1, pf.2)

/-- Capacity invariant of the spec, first dimension: remaining weight
equals initial weight minus the summed weights of the selected items. -/
def weight_inv (k : Knapsack) : Prop :=
  k.weight = k.initial_weight - (k.items.map Item.weight).sum

/-- Capacity invariant, second dimension. -/
def volume_inv (k : Knapsack) : Prop :=
  k.volume = k.initial_volume - (k.items.map Item.volume).sum

/-- Value invariant: the tracked total equals the summed item values. -/
def value_inv (k : Knapsack) : Prop :=
  k.value = (k.items.map Item.value).sum

instance (k : Knapsack) : Decidable (weight_inv k) := by
  unfold weight_inv; infer_instance

instance (k : Knapsack) : Decidable (volume_inv k) := by
  unfold volume_inv; infer_instance

instance (k : Knapsack) : Decidable (value_inv k) := by
  unfold value_inv; infer_instance

/-- Bundle of the bookkeeping invariants together with the immutability
of the two initial capacities, preserved by every primitive mutation. -/
def base_inv (iw iv : Int) (k : Knapsack) : Prop :=
  k.initial_weight = iw ∧ k.initial_volume = iv ∧
  weight_inv k ∧ volume_inv k ∧ value_inv k

/-- Folding a sequence of insertions into a fresh tabu list of size K. -/
def tabuFold (K : Nat) (ms : List Movement) : TabuList :=
  ms.foldl TabuList.push (TabuList.mk K [])

/-- Concrete instances used in the counterexample runs and witnesses. -/
def itemA1 : Item := Item.mk "A" 6 5 5

def itemC1 : Item := Item.mk "C" 4 3 3

def tabu200 : TabuList := TabuList.mk 200 []

def k0C1 : Knapsack :=
  Knapsack.mk 10 10 10 10 0 [] [itemA1, itemC1] []

/-- Deterministic neighborhood for the C1 run: add A, then add C, then
propose removing C. -/
def nfC1 (k : Knapsack) : List Movement :=
  if itemA1 ∉ k.items then [Movement.mk [itemA1] []]
  else if itemC1 ∉ k.items then [Movement.mk [itemC1] []]
  else [Movement.mk [] [itemC1]]

def itemA4 : Item := Item.mk "A4" 6 5 5

def itemC4i : Item := Item.mk "C4" 7 3 3

def k0C4 : Knapsack :=
  Knapsack.mk 10 10 5 5 6 [itemA4] [itemC4i] []

/-- Deterministic neighborhood for the C4 run: propose removing A4 while
it is selected, then adding C4, then nothing (forcing the aspiration
branch). -/
def nfC4 (k : Knapsack) : List Movement :=
  if itemA4 ∈ k.items then [Movement.mk [] [itemA4]]
  else if itemC4i ∉ k.items then [Movement.mk [itemC4i] []]
  else []

def itemA3 : Item := Item.mk "A" 1 5 5

def itemB3 : Item := Item.mk "B" 2 5 5

def itemC3 : Item := Item.mk "C" 3 5 5

def kC3 : Knapsack :=
  Knapsack.mk 10 10 5 5 1 [itemA3] [itemB3, itemC3] []

def itemS5 : Item := Item.mk "S" 1 6 6

def itemX5 : Item := Item.mk "X" 5 3 3

def itemY5 : Item := Item.mk "Y" 4 3 3

def kC5 : Knapsack :=
  Knapsack.mk 10 10 4 4 1 [itemS5] [itemX5, itemY5] []

/-- Oracle draws for the C5 genetic-algorithm run (population 4, one
generation): four proposal draws below 2/5 picking X, Y, Y, Y; one
crossover of parents add-Y and add-X producing the combined movement;
two elite copies. -/
def rngC5 : RNG :=
  RNG.mk
    [mkRat 3 10, mkRat 3 10, mkRat 3 10, mkRat 3 10, mkRat 1 2, 0, 0, 0, 0,
     mkRat 1 2, mkRat 9 10, mkRat 1 2, mkRat 9 10, mkRat 1 2]
    [0, 0, 0, 0, 1, 1, 1, 1, 1, 1, 0, 0, 0, 1, 1, 1, 1, 1, 1, 1, 1, 1, 1, 1, 1]

/-- The crossover child of the C5 run: add Y and X together. -/
def childYX : Movement := Movement.mk [itemY5, itemX5] []

def kW2 : Knapsack :=
  Knapsack.mk 10 10 5 5 6 [itemA1] [itemC1] []

def mW2 : Movement := Movement.mk [] [itemC1]

def m6 : Movement := Movement.mk [itemC1] []

def m10 : Item := Item.mk "D" 9 2 3

def msC8 : List Movement :=
  [Movement.mk [itemA1] [], Movement.mk [itemC1] [],
   Movement.mk [] [itemA1], Movement.mk [] [itemC1]]

/-- C9: `reverse` swaps the `toAdd` and `toRemove` sets and is an
involution up to structural equality. -/
theorem movement_reverse_swaps_and_involutes (m : Movement) :
    (Movement.reverse m).add_items = m.remove_items ∧
    (Movement.reverse m).remove_items = m.add_items ∧
    Movement.reverse (Movement.reverse m) = m :=
  ⟨rfl, rfl, rfl⟩

/-- C7: `can_swap inside outside` holds exactly when `inside` is
selected, `outside` is not, `outside` fits in both capacities freed by
hypothetically removing `inside`, and the total value after the swap
(`value - inside.value + outside.value`) strictly exceeds the current
total value. -/
theorem can_swap_characterization (k : Knapsack) (i o : Item) :
    can_swap k i o = true ↔
      (i ∈ k.items ∧ o ∉ k.items ∧ o.weight ≤ k.weight + i.weight ∧
       o.volume ≤ k.volume + i.volume ∧
       k.value < k.value - i.value + o.value) := by
  simp only [can_swap]
  split_ifs with h1 h2
  · simp only [Bool.false_eq_true, false_iff]
    intro h
    rcases h1 with h1 | h1
    · exact h1 h.1
    · exact h.2.1 h1
  · push_neg at h1
    simp only [decide_eq_true_eq]
    constructor
    · intro h; exact ⟨h1.1, h1.2, h2.1, h2.2, h⟩
    · intro h; exact h.2.2.2.2
  · simp only [Bool.false_eq_true, false_iff]
    intro h
    exact h2 ⟨h.2.2.1, h.2.2.2.1⟩

/-- C3: at `kC3` (positive total value, an improving swap available for
the densest candidate), `first_improving_neighborhood` does not return
after the first improving swap: the source compares the boolean result
of `evaluate_swap` (coerced to 0/1) with the integer total value, so the
early return of neighborhood.py line 59 never fires once the value is
at least 1, and the full swap list of length 2 is returned. -/
theorem first_improving_no_short_circuit :
    first_improving_neighborhood kC3 =
      [Movement.mk [itemC3] [itemA3], Movement.mk [itemB3] [itemA3]] ∧
    can_swap kC3 itemA3 itemC3 = true ∧
    Movement.movement_avaliation (Movement.mk [itemC3] [itemA3]) = 2 := by
  decide

/-- C1: a three-iteration tabu run on `k0C1` (add A, add C, then apply
the value-losing removal of C) records best items [A, C] with value 10,
but the Terminated restore of tabu.py lines 82-84 writes back only
`value`, `items` and `moves_made`, leaving the live remaining
capacities (5, 5) instead of 10 - 8 = 2, so both capacity invariants
are violated after the run. -/
theorem tabu_restore_leaves_stale_capacities :
    (tabu_search nfC1 3 k0C1 tabu200).1.items = [itemA1, itemC1] ∧
    (tabu_search nfC1 3 k0C1 tabu200).1.value = 10 ∧
    (tabu_search nfC1 3 k0C1 tabu200).1.weight = 5 ∧
    (tabu_search nfC1 3 k0C1 tabu200).1.volume = 5 ∧
    ¬ weight_inv (tabu_search nfC1 3 k0C1 tabu200).1 ∧
    ¬ volume_inv (tabu_search nfC1 3 k0C1 tabu200).1 := by
  decide

/-- C4: a three-iteration tabu run on `k0C4` reaches the aspiration
branch (empty candidate list, tabu entry add-A4 with positive delta).
The branch records the snapshot at tabu.py lines 68-70 before calling
`execute_movement`: the recorded best value 13 is paired with the
pre-apply selected set [C4] whose values sum to 7, not with the
post-apply set [C4, A4], so the restored state violates the value
invariant. -/
theorem aspiration_snapshot_before_apply :
    (tabu_search nfC4 3 k0C4 tabu200).1.value = 13 ∧
    (tabu_search nfC4 3 k0C4 tabu200).1.items = [itemC4i] ∧
    (((tabu_search nfC4 3 k0C4 tabu200).1.items.map Item.value).sum = 7) ∧
    ¬ value_inv (tabu_search nfC4 3 k0C4 tabu200).1 := by
  decide

/-- C5: with the oracle `rngC5`, the genetic-algorithm generator run on
`kC5` (population 4, one generation) returns a crossover child adding Y
and X together.  The child passes `is_valid_movement` because that
filter simulates against a scratch knapsack holding none of the
currently selected items (no selected item has a structural match in
`all_items`), yet the movement fails the section-4.3 feasibility rule:
`execute_movement` rejects it since Y and X together exceed the true
post-removal capacity. -/
theorem ga_neighborhood_emits_infeasible_movement :
    childYX ∈
      (genetic_algorithm_neighborhood rngC5 kC5 4 1 (mkRat 1 10)
        (mkRat 7 10)).1 ∧
    is_valid_movement childYX kC5 = true ∧
    (execute_movement kC5 childYX).2 = false := by
  decide

theorem sum_map_erase (f : Item → Int) {l : List Item} {a : Item}
    (h : a ∈ l) : ((l.erase a).map f).sum = (l.map f).sum - f a := by
  have hs := ((List.perm_cons_erase h).map f).sum_eq
  simp only [List.map_cons, List.sum_cons] at hs
  omega

theorem add_item_base_inv {iw iv : Int} (k : Knapsack) (it : Item)
    (h : base_inv iw iv k) : base_inv iw iv (add_item k it).1 := by
  obtain ⟨e1, e2, e3, e4, e5⟩ := h
  simp only [weight_inv, volume_inv, value_inv] at e3 e4 e5
  unfold add_item
  split_ifs with h1 h2
  all_goals
    first
      | exact ⟨e1, e2, e3, e4, e5⟩
      | (refine ⟨e1, e2, ?_, ?_, ?_⟩ <;>
          simp only [weight_inv, volume_inv, value_inv, List.map_append,
            List.sum_append, List.map_cons, List.sum_cons, List.map_nil,
            List.sum_nil] <;>
          omega)

theorem remove_item_base_inv {iw iv : Int} (k : Knapsack) (it : Item)
    (h : base_inv iw iv k) : base_inv iw iv (remove_item k it).1 := by
  obtain ⟨e1, e2, e3, e4, e5⟩ := h
  simp only [weight_inv, volume_inv, value_inv] at e3 e4 e5
  unfold remove_item
  split_ifs with h1 h2
  all_goals
    first
      | exact ⟨e1, e2, e3, e4, e5⟩
      | (refine ⟨e1, e2, ?_, ?_, ?_⟩ <;>
          simp only [weight_inv, volume_inv, value_inv,
            sum_map_erase _ h1] <;>
          omega)

theorem cleanup_base_inv {iw iv : Int} (k : Knapsack)
    (h : base_inv iw iv k) : base_inv iw iv (cleanup_all_items k) := h

theorem force_restore_base_inv {iw iv : Int} (k : Knapsack) (it : Item)
    (h : base_inv iw iv k) : base_inv iw iv (force_restore k it) := by
  obtain ⟨e1, e2, e3, e4, e5⟩ := h
  simp only [weight_inv, volume_inv, value_inv] at e3 e4 e5
  refine ⟨e1, e2, ?_, ?_, ?_⟩ <;>
    simp only [weight_inv, volume_inv, value_inv, force_restore,
      List.map_append, List.sum_append, List.map_cons, List.sum_cons,
      List.map_nil, List.sum_nil] <;>
    omega

theorem foldl_base_inv {β : Type} {iw iv : Int} (f : Knapsack → β → Knapsack)
    (hf : ∀ k b, base_inv iw iv k → base_inv iw iv (f k b)) :
    ∀ (l : List β) (k : Knapsack), base_inv iw iv k →
      base_inv iw iv (List.foldl f k l) := by
  intro l
  induction l with
  | nil => intro k h; exact h
  | cons b bs ih => intro k h; exact ih (f k b) (hf k b h)

theorem do_removals_base_inv {iw iv : Int} (k : Knapsack) (rm : List Item)
    (h : base_inv iw iv k) : base_inv iw iv (do_removals k rm) :=
  foldl_base_inv _ (fun kk it hh => remove_item_base_inv kk it hh) rm k h

theorem rollback_adds_base_inv {iw iv : Int} (k : Knapsack)
    (added : List Item) (h : base_inv iw iv k) :
    base_inv iw iv (rollback_adds k added) :=
  foldl_base_inv _
    (fun kk it hh => by
      split_ifs with hm
      all_goals first
        | exact remove_item_base_inv kk it hh
        | exact hh) added k h

theorem rollback_removed_base_inv {iw iv : Int} (k : Knapsack)
    (removed : List Item) (h : base_inv iw iv k) :
    base_inv iw iv (rollback_removed k removed) :=
  foldl_base_inv _
    (fun kk it hh => by
      split_ifs with hm
      all_goals first
        | exact add_item_base_inv kk it hh
        | exact hh) removed k h

theorem rollback_removed_force_base_inv {iw iv : Int} (k : Knapsack)
    (removed : List Item) (h : base_inv iw iv k) :
    base_inv iw iv (rollback_removed_force k removed) :=
  foldl_base_inv _
    (fun kk it hh => by
      split_ifs with hm hm2
      all_goals first
        | exact add_item_base_inv kk it hh
        | exact force_restore_base_inv kk it hh
        | exact hh) removed k h

theorem rollback_base_inv {iw iv : Int} (k : Knapsack)
    (added removed : List Item) (h : base_inv iw iv k) :
    base_inv iw iv (rollback k added removed) :=
  rollback_removed_base_inv _ _ (rollback_adds_base_inv _ _ h)

theorem rollbackB_base_inv {iw iv : Int} (k : Knapsack)
    (added removed : List Item) (h : base_inv iw iv k) :
    base_inv iw iv (rollbackB k added removed) :=
  rollback_removed_force_base_inv _ _ (rollback_adds_base_inv _ _ h)

theorem do_adds_base_inv {iw iv : Int} :
    ∀ (adds : List Item) (k : Knapsack) (added removed : List Item),
      base_inv iw iv k → base_inv iw iv (do_adds k adds added removed).1 := by
  intro adds
  induction adds with
  | nil => intro k a r h; exact h
  | cons x rest ih =>
    intro k a r h
    unfold do_adds
    split_ifs with h1 h2 h3
    · exact rollback_base_inv _ _ _ h
    · exact rollbackB_base_inv _ _ _ h
    · exact ih _ _ _ (add_item_base_inv k x h)
    · exact rollback_base_inv _ _ _ h


theorem execute_base_inv {iw iv : Int} (k : Knapsack) (m : Movement)
    (h : base_inv iw iv k) : base_inv iw iv (execute_movement k m).1 := by
  unfold execute_movement
  split_ifs with h1 h2 h3
  all_goals first
    | exact h
    | exact do_adds_base_inv _ _ _ _
        (do_removals_base_inv _ _ (cleanup_base_inv _ h))

theorem add_item_success (k : Knapsack) (x : Item)
    (hcan : can_add_item k x = true) (hx : x ∉ k.items) :
    add_item k x
      = ({ k with items := k.items ++ [x],
                  weight := k.weight - x.weight,
                  volume := k.volume - x.volume,
                  value := k.value + x.value,
                  all_items := k.all_items.filter (fun i => !decide (i = x)) },
         true) := by
  unfold add_item
  rw [if_pos hcan, if_neg hx]

theorem remove_item_items_of_mem (k : Knapsack) (it : Item)
    (h : it ∈ k.items) : (remove_item k it).1.items = k.items.erase it := by
  unfold remove_item
  rw [if_pos h]

theorem remove_item_eq_of_not_mem (k : Knapsack) (it : Item)
    (h : it ∉ k.items) : (remove_item k it).1 = k := by
  unfold remove_item
  rw [if_neg h]

theorem do_removals_items :
    ∀ (rm : List Item) (k : Knapsack), k.items.Nodup →
      (do_removals k rm).items
        = k.items.filter (fun it => !decide (it ∈ rm)) := by
  intro rm
  induction rm with
  | nil =>
    intro k h
    simp [do_removals]
  | cons r rs ih =>
    intro k h
    have step : do_removals k (r :: rs) = do_removals (remove_item k r).1 rs :=
      rfl
    rw [step]
    by_cases hm : r ∈ k.items
    · have hi : (remove_item k r).1.items = k.items.erase r :=
        remove_item_items_of_mem k r hm
      have hnd : (remove_item k r).1.items.Nodup := by
        rw [hi]; exact h.erase r
      rw [ih _ hnd, hi, List.Nodup.erase_eq_filter h r, List.filter_filter]
      apply List.filter_congr
      intro x hx
      by_cases hxr : x = r <;> by_cases hxs : x ∈ rs <;>
        simp [hxr, hxs]
    · rw [remove_item_eq_of_not_mem k r hm, ih _ h]
      apply List.filter_congr
      intro x hx
      have hxr : x ≠ r := fun e => hm (e ▸ hx)
      simp [hxr]

theorem check_adds_sub :
    ∀ (adds T I : List Item) (tw tv : Int),
      check_adds adds T I tw tv = true → ∀ a ∈ adds, a ∉ I := by
  intro adds
  induction adds with
  | nil => intro T I tw tv h a ha; exact absurd ha (List.not_mem_nil a)
  | cons x rest ih =>
    intro T I tw tv h a ha
    unfold check_adds at h
    by_cases hT : x ∈ T
    · rw [if_pos hT] at h; exact absurd h (by simp)
    · rw [if_neg hT] at h
      by_cases hI : x ∈ I
      · rw [if_pos hI] at h; exact absurd h (by simp)
      · rw [if_neg hI] at h
        by_cases hf : tw < x.weight ∨ tv < x.volume
        · rw [if_pos hf] at h; exact absurd h (by simp)
        · rw [if_neg hf] at h
          rcases List.mem_cons.mp ha with rfl | ha2
          · exact hI
          · exact ih _ _ _ _ h a ha2

theorem do_adds_ok :
    ∀ (adds : List Item) (k : Knapsack) (T D I : List Item)
      (added removed : List Item),
      k.items = T ++ D → adds.Nodup → (∀ a ∈ adds, a ∉ D) →
      check_adds adds T I k.weight k.volume = true →
      (do_adds k adds added removed).2 = true ∧
      (do_adds k adds added removed).1.items = k.items ++ adds := by
  intro adds
  induction adds with
  | nil =>
    intro k T D I a r hk hnd hD hchk
    exact ⟨rfl, by simp [do_adds]⟩
  | cons x rest ih =>
    intro k T D I a r hk hnd hD hchk
    unfold check_adds at hchk
    by_cases hT : x ∈ T
    · rw [if_pos hT] at hchk; exact absurd hchk (by simp)
    by_cases hI : x ∈ I
    · rw [if_neg hT, if_pos hI] at hchk; exact absurd hchk (by simp)
    by_cases hf : k.weight < x.weight ∨ k.volume < x.volume
    · rw [if_neg hT, if_neg hI, if_pos hf] at hchk
      exact absurd hchk (by simp)
    rw [if_neg hT, if_neg hI, if_neg hf] at hchk
    have hxD : x ∉ D := hD x (List.mem_cons_self x rest)
    have hxItems : x ∉ k.items := by
      rw [hk]
      simp only [List.mem_append]
      rintro (hmem | hmem)
      · exact hT hmem
      · exact hxD hmem
    have hcan : can_add_item k x = true := by
      simp only [can_add_item, decide_eq_true_eq]
      push_neg at hf
      exact ⟨hf.1, hf.2, hxItems⟩
    have hsucc := add_item_success k x hcan hxItems
    have hit : (add_item k x).1.items = k.items ++ [x] := by rw [hsucc]
    have hw2 : (add_item k x).1.weight = k.weight - x.weight := by rw [hsucc]
    have hv2 : (add_item k x).1.volume = k.volume - x.volume := by rw [hsucc]
    have hb2 : (add_item k x).2 = true := by rw [hsucc]
    have hunfold : do_adds k (x :: rest) a r
        = (if !(can_add_item k x) then (rollback k a r, false)
           else if x ∈ k.items then (rollbackB k a r, false)
           else if (add_item k x).2 then
             do_adds (add_item k x).1 rest (a ++ [x]) r
           else (rollback k a r, false)) := rfl
    have hstep : do_adds k (x :: rest) a r
        = do_adds (add_item k x).1 rest (a ++ [x]) r := by
      rw [hunfold, hcan]
      simp only [Bool.not_true, Bool.false_eq_true, if_false]
      rw [if_neg hxItems, if_pos hb2]
    rw [hstep]
    have hres := ih (add_item k x).1 T (D ++ [x]) I (a ++ [x]) r
      (by rw [hit, hk, List.append_assoc])
      (List.Nodup.of_cons hnd)
      (by
        intro b hb
        simp only [List.mem_append, List.mem_singleton]
        rintro (hbD | rfl)
        · exact hD b (List.mem_cons_of_mem x hb) hbD
        · exact (List.Nodup.not_mem hnd) hb)
      (by rw [hw2, hv2]; exact hchk)
    refine ⟨hres.1, ?_⟩
    rw [hres.2, hit, List.append_assoc]
    rfl

theorem execute_structure (k : Knapsack) (m : Movement) :
    execute_movement k m = (k, false) ∨
    ((∀ it ∈ m.remove_items, it ∈ k.items) ∧ m.add_items.Nodup ∧
      check_adds m.add_items
        (k.items.filter (fun it => !decide (it ∈ m.remove_items))) k.items
        (k.initial_weight -
          ((k.items.filter (fun it => !decide (it ∈ m.remove_items))).map
            Item.weight).sum)
        (k.initial_volume -
          ((k.items.filter (fun it => !decide (it ∈ m.remove_items))).map
            Item.volume).sum) = true ∧
      execute_movement k m
        = do_adds (do_removals (cleanup_all_items k) m.remove_items)
            m.add_items [] m.remove_items) := by
  unfold execute_movement
  split_ifs with h1 h2 h3
  all_goals try exact Or.inl rfl
  exact Or.inr ⟨h1, h2, h3, rfl⟩

theorem execute_valid_ok (k : Knapsack) (m : Movement)
    (hnd : k.items.Nodup) (hw : weight_inv k) (hv : volume_inv k)
    (hval : value_inv k)
    (hnd2 : m.add_items.Nodup)
    (hchk : check_adds m.add_items
      (k.items.filter (fun it => !decide (it ∈ m.remove_items))) k.items
      (k.initial_weight -
        ((k.items.filter (fun it => !decide (it ∈ m.remove_items))).map
          Item.weight).sum)
      (k.initial_volume -
        ((k.items.filter (fun it => !decide (it ∈ m.remove_items))).map
          Item.volume).sum) = true) :
    (do_adds (do_removals (cleanup_all_items k) m.remove_items)
        m.add_items [] m.remove_items).2 = true ∧
    (do_adds (do_removals (cleanup_all_items k) m.remove_items)
        m.add_items [] m.remove_items).1.items
      = k.items.filter (fun it => !decide (it ∈ m.remove_items))
        ++ m.add_items := by
  have hbase : base_inv k.initial_weight k.initial_volume
      (do_removals (cleanup_all_items k) m.remove_items) :=
    do_removals_base_inv _ _ (cleanup_base_inv _ ⟨rfl, rfl, hw, hv, hval⟩)
  have hki : (do_removals (cleanup_all_items k) m.remove_items).items
      = k.items.filter (fun it => !decide (it ∈ m.remove_items)) :=
    do_removals_items m.remove_items (cleanup_all_items k) hnd
  have hkw : (do_removals (cleanup_all_items k) m.remove_items).weight
      = k.initial_weight -
        ((k.items.filter (fun it => !decide (it ∈ m.remove_items))).map
          Item.weight).sum := by
    have h3 := hbase.2.2.1
    rw [weight_inv] at h3
    rw [h3, hbase.1, hki]
  have hkv : (do_removals (cleanup_all_items k) m.remove_items).volume
      = k.initial_volume -
        ((k.items.filter (fun it => !decide (it ∈ m.remove_items))).map
          Item.volume).sum := by
    have h3 := hbase.2.2.2.1
    rw [volume_inv] at h3
    rw [h3, hbase.2.1, hki]
  have hres := do_adds_ok m.add_items
    (do_removals (cleanup_all_items k) m.remove_items)
    (k.items.filter (fun it => !decide (it ∈ m.remove_items))) [] k.items
    [] m.remove_items
    (by rw [hki, List.append_nil])
    hnd2
    (by intro a ha; exact List.not_mem_nil a)
    (by rw [hkw, hkv]; exact hchk)
  refine ⟨hres.1, ?_⟩
  rw [hres.2, hki]

theorem execute_fail_eq (k : Knapsack) (m : Movement)
    (hnd : k.items.Nodup) (hw : weight_inv k) (hv : volume_inv k)
    (hval : value_inv k) (hf : (execute_movement k m).2 = false) :
    (execute_movement k m).1 = k := by
  rcases execute_structure k m with heq | ⟨hrm, hnd2, hchk, heq⟩
  · rw [heq]
  · exfalso
    have hok := execute_valid_ok k m hnd hw hv hval hnd2 hchk
    rw [heq, hok.1] at hf
    exact absurd hf (by simp)

theorem execute_success_shape (k : Knapsack) (m : Movement)
    (hnd : k.items.Nodup) (hw : weight_inv k) (hv : volume_inv k)
    (hval : value_inv k) (hs : (execute_movement k m).2 = true) :
    (execute_movement k m).1.items
      = k.items.filter (fun it => !decide (it ∈ m.remove_items))
        ++ m.add_items ∧
    m.add_items.Nodup ∧
    (∀ a ∈ m.add_items, a ∉ k.items) ∧
    (∀ r ∈ m.remove_items, r ∈ k.items) := by
  rcases execute_structure k m with heq | ⟨hrm, hnd2, hchk, heq⟩
  · rw [heq] at hs; exact absurd hs (by simp)
  · have hok := execute_valid_ok k m hnd hw hv hval hnd2 hchk
    refine ⟨?_, hnd2, ?_, hrm⟩
    · rw [heq, hok.2]
    · exact check_adds_sub _ _ _ _ _ hchk

/-- C2: for a Solution State (no duplicate selected items, capacity and
value invariants holding, as every reachable state has), whenever
`execute_movement` reports failure the returned state is equal,
field-for-field, to the input state.  The validation phase returns the
untouched state on every failure path, and under the invariants the
execution phase (whose defensive rollback paths could otherwise mutate
`all_items` through `_cleanup_all_items` before failing) always
succeeds, so a failure can only come from validation. -/
theorem execute_movement_failure_leaves_state_unchanged
    (k : Knapsack) (m : Movement) (hnd : k.items.Nodup)
    (hw : weight_inv k) (hv : volume_inv k) (hval : value_inv k)
    (hf : (execute_movement k m).2 = false) :
    (execute_movement k m).1 = k :=
  execute_fail_eq k m hnd hw hv hval hf

/-- Witness for C2 at a concrete state and failing movement: `mW2`
removes an item that is not selected, so `execute_movement` fails and
the state is unchanged. -/
theorem execute_movement_failure_witness :
    (execute_movement kW2 mW2).2 = false ∧ (execute_movement kW2 mW2).1 = kW2 :=
  ⟨by decide,
   execute_movement_failure_leaves_state_unchanged kW2 mW2 (by decide)
     (by decide) (by decide) (by decide) (by decide)⟩

/-- C10: if `add_item` succeeds and `remove_item` of the same item is
called immediately afterwards, the removal succeeds and the selected
list, total value and both remaining capacities are restored exactly in
integer arithmetic.  (`all_items` is deliberately not part of the claim:
`add_item` deletes every equal copy while `remove_item` puts back at
most one.) -/
theorem add_then_remove_restores (k : Knapsack) (it : Item)
    (h : (add_item k it).2 = true) :
    (remove_item (add_item k it).1 it).2 = true ∧
    (remove_item (add_item k it).1 it).1.items = k.items ∧
    (remove_item (add_item k it).1 it).1.value = k.value ∧
    (remove_item (add_item k it).1 it).1.weight = k.weight ∧
    (remove_item (add_item k it).1 it).1.volume = k.volume := by
  by_cases hcan : can_add_item k it = true
  · have hx : it ∉ k.items := (of_decide_eq_true hcan).2.2
    have hsucc := add_item_success k it hcan hx
    have hmem : it ∈ (add_item k it).1.items := by
      rw [hsucc]
      exact List.mem_append_right _ (List.mem_singleton_self it)
    have f1 : (add_item k it).1.items = k.items ++ [it] := by rw [hsucc]
    have f2 : (add_item k it).1.weight = k.weight - it.weight := by rw [hsucc]
    have f3 : (add_item k it).1.volume = k.volume - it.volume := by rw [hsucc]
    have f4 : (add_item k it).1.value = k.value + it.value := by rw [hsucc]
    have herase : ((add_item k it).1.items).erase it = k.items := by
      rw [f1, List.erase_append_right _ hx, List.erase_cons_head,
        List.append_nil]
    have hrm_eq : remove_item (add_item k it).1 it
        = ({ (add_item k it).1 with
              weight := (add_item k it).1.weight + it.weight,
              volume := (add_item k it).1.volume + it.volume,
              value := (add_item k it).1.value - it.value,
              items := ((add_item k it).1.items).erase it,
              all_items := if it ∈ (add_item k it).1.all_items
                           then (add_item k it).1.all_items
                           else (add_item k it).1.all_items ++ [it] },
           true) := by
      unfold remove_item
      rw [if_pos hmem]
    refine ⟨by rw [hrm_eq], ?_, ?_, ?_, ?_⟩
    · rw [hrm_eq]
      show ((add_item k it).1.items).erase it = k.items
      exact herase
    · rw [hrm_eq]
      show (add_item k it).1.value - it.value = k.value
      rw [f4]; omega
    · rw [hrm_eq]
      show (add_item k it).1.weight + it.weight = k.weight
      rw [f2]; omega
    · rw [hrm_eq]
      show (add_item k it).1.volume + it.volume = k.volume
      rw [f3]; omega
  · exfalso
    have heq : add_item k it = (k, false) := by
      unfold add_item
      rw [if_neg hcan]
    rw [heq] at h
    exact absurd h (by simp)

/-- Witness for C10: adding the fitting item `m10` to `kW2` succeeds and
the immediate removal restores the selected list and all totals. -/
theorem add_then_remove_restores_witness :
    (add_item kW2 m10).2 = true ∧
    ((remove_item (add_item kW2 m10).1 m10).2 = true ∧
     (remove_item (add_item kW2 m10).1 m10).1.items = kW2.items ∧
     (remove_item (add_item kW2 m10).1 m10).1.value = kW2.value ∧
     (remove_item (add_item kW2 m10).1 m10).1.weight = kW2.weight ∧
     (remove_item (add_item kW2 m10).1 m10).1.volume = kW2.volume) :=
  ⟨by decide, add_then_remove_restores kW2 m10 (by decide)⟩

theorem sum_map_filter_split (f : Item → Int) (p : Item → Bool)
    (l : List Item) :
    ((l.filter p).map f).sum + ((l.filter (fun x => !p x)).map f).sum
      = (l.map f).sum := by
  have hs := ((List.filter_append_perm p l).map f).sum_eq
  simp only [List.map_append, List.sum_append] at hs
  exact hs

theorem sum_map_filter_mem (f : Item → Int) {l rm : List Item}
    (hl : l.Nodup) (hrm : rm.Nodup) (hsub : ∀ r ∈ rm, r ∈ l) :
    ((l.filter (fun it => decide (it ∈ rm))).map f).sum = (rm.map f).sum := by
  have hnd1 : (l.filter (fun it => decide (it ∈ rm))).Nodup := hl.filter _
  have hperm : (l.filter (fun it => decide (it ∈ rm))).Perm rm := by
    rw [List.perm_ext_iff_of_nodup hnd1 hrm]
    intro a
    simp only [List.mem_filter, decide_eq_true_eq]
    constructor
    · rintro ⟨h1, h2⟩; exact h2
    · intro hA; exact ⟨hsub a hA, hA⟩
  exact (hperm.map f).sum_eq

/-- C6: from a Solution State, if applying `m` succeeds and applying
`reverse m` to the result is then attempted, the second apply either
succeeds with total value and both remaining capacities equal to the
pre-`m` values, or fails leaving the intermediate state unchanged. -/
theorem execute_then_reverse_preserves_totals (k : Knapsack) (m : Movement)
    (hnd : k.items.Nodup) (hw : weight_inv k) (hv : volume_inv k)
    (hval : value_inv k) (h1 : (execute_movement k m).2 = true) :
    ((execute_movement (execute_movement k m).1 (Movement.reverse m)).2
        = true →
      (execute_movement (execute_movement k m).1 (Movement.reverse m)).1.value
        = k.value ∧
      (execute_movement (execute_movement k m).1
          (Movement.reverse m)).1.weight = k.weight ∧
      (execute_movement (execute_movement k m).1
          (Movement.reverse m)).1.volume = k.volume) ∧
    ((execute_movement (execute_movement k m).1 (Movement.reverse m)).2
        = false →
      (execute_movement (execute_movement k m).1 (Movement.reverse m)).1
        = (execute_movement k m).1) := by
  obtain ⟨hi1, hnd2, hadds, hrm⟩ := execute_success_shape k m hnd hw hv hval h1
  have hbase1 : base_inv k.initial_weight k.initial_volume
      (execute_movement k m).1 :=
    execute_base_inv k m ⟨rfl, rfl, hw, hv, hval⟩
  have hnd1 : (execute_movement k m).1.items.Nodup := by
    rw [hi1]
    refine List.Nodup.append (hnd.filter _) hnd2 ?_
    intro a ha hb
    exact hadds a hb (List.mem_filter.mp ha).1
  constructor
  · intro h2
    obtain ⟨hi2, hndrm, hadds2, hrm2⟩ :=
      execute_success_shape (execute_movement k m).1 (Movement.reverse m)
        hnd1 hbase1.2.2.1 hbase1.2.2.2.1 hbase1.2.2.2.2 h2
    have hra : (Movement.reverse m).add_items = m.remove_items := rfl
    have hrr : (Movement.reverse m).remove_items = m.add_items := rfl
    rw [hra, hrr] at hi2
    rw [hra] at hndrm
    rw [hra] at hadds2
    rw [hrr] at hrm2
    have hbase2 : base_inv k.initial_weight k.initial_volume
        (execute_movement (execute_movement k m).1 (Movement.reverse m)).1 :=
      execute_base_inv _ _ hbase1
    have hi2' : (execute_movement (execute_movement k m).1
          (Movement.reverse m)).1.items
        = k.items.filter (fun it => !decide (it ∈ m.remove_items))
          ++ m.remove_items := by
      rw [hi2, hi1, List.filter_append]
      have e1 : (k.items.filter
            (fun it => !decide (it ∈ m.remove_items))).filter
            (fun it => !decide (it ∈ m.add_items))
          = k.items.filter (fun it => !decide (it ∈ m.remove_items)) := by
        apply List.filter_eq_self.mpr
        intro a ha
        have hmem : a ∈ k.items := (List.mem_filter.mp ha).1
        simp only [Bool.not_eq_true', decide_eq_false_iff_not]
        intro hin
        exact hadds a hin hmem
      have e2 : m.add_items.filter
            (fun it => !decide (it ∈ m.add_items)) = [] := by
        apply List.filter_eq_nil_iff.mpr
        intro a ha
        simp [ha]
      rw [e1, e2, List.append_nil]
    have hsum : ∀ f : Item → Int,
        ((execute_movement (execute_movement k m).1
            (Movement.reverse m)).1.items.map f).sum
          = (k.items.map f).sum := by
      intro f
      rw [hi2', List.map_append, List.sum_append]
      have h3 := sum_map_filter_split f
        (fun it => decide (it ∈ m.remove_items)) k.items
      have h4 := sum_map_filter_mem f hnd hndrm hrm
      omega
    have hvalE := hval; rw [value_inv] at hvalE
    have hwE := hw; rw [weight_inv] at hwE
    have hvE := hv; rw [volume_inv] at hvE
    have hval2 := hbase2.2.2.2.2; rw [value_inv] at hval2
    have hw2 := hbase2.2.2.1; rw [weight_inv] at hw2
    have hv2 := hbase2.2.2.2.1; rw [volume_inv] at hv2
    refine ⟨?_, ?_, ?_⟩
    · rw [hval2, hsum Item.value]
      exact hvalE.symm
    · rw [hw2, hbase2.1, hsum Item.weight]
      exact hwE.symm
    · rw [hv2, hbase2.2.1, hsum Item.volume]
      exact hvE.symm
  · intro h2
    exact execute_fail_eq (execute_movement k m).1 (Movement.reverse m) hnd1
      hbase1.2.2.1 hbase1.2.2.2.1 hbase1.2.2.2.2 h2

/-- Witness for C6: applying the single-add movement `m6` to `kW2` and
then its reverse restores all three totals exactly. -/
theorem execute_then_reverse_witness :
    (execute_movement kW2 m6).2 = true ∧
    (execute_movement (execute_movement kW2 m6).1
        (Movement.reverse m6)).2 = true ∧
    (execute_movement (execute_movement kW2 m6).1
        (Movement.reverse m6)).1.value = kW2.value ∧
    (execute_movement (execute_movement kW2 m6).1
        (Movement.reverse m6)).1.weight = kW2.weight ∧
    (execute_movement (execute_movement kW2 m6).1
        (Movement.reverse m6)).1.volume = kW2.volume := by
  have happ := (execute_then_reverse_preserves_totals kW2 m6 (by decide)
    (by decide) (by decide) (by decide) (by decide)).1 (by decide)
  exact ⟨by decide, by decide, happ.1, happ.2.1, happ.2.2⟩

theorem tabu_push_foldl (K : Nat) (hK : 1 ≤ K) :
    ∀ (ms : List Movement) (t : TabuList), t.size = K →
      t.entries.length ≤ K →
      (List.foldl TabuList.push t ms).entries
        = (t.entries ++ ms).drop (t.entries.length + ms.length - K) := by
  intro ms
  induction ms with
  | nil =>
    intro t hs hl
    simp only [List.foldl_nil, List.length_nil, Nat.add_zero, List.append_nil]
    rw [Nat.sub_eq_zero_of_le hl, List.drop_zero]
  | cons m ms ih =>
    intro t hs hl
    simp only [List.foldl_cons]
    by_cases hfull : t.entries.length = t.size
    · have hpush : TabuList.push t m
          = { t with entries := t.entries.tail ++ [m] } := by
        unfold TabuList.push
        rw [if_pos hfull]
      obtain ⟨x, e, hxe⟩ : ∃ x e, t.entries = x :: e := by
        cases he : t.entries with
        | nil =>
          rw [he] at hfull
          rw [hs] at hfull
          exact absurd hfull.symm (by simp; omega)
        | cons x e => exact ⟨x, e, rfl⟩
      have hlen : e.length + 1 = K := by
        rw [hxe, hs] at hfull
        simpa using hfull
      have hpe : (TabuList.push t m).entries = e ++ [m] := by
        rw [hpush]
        show t.entries.tail ++ [m] = e ++ [m]
        rw [hxe]
        rfl
      have hpl : (TabuList.push t m).entries.length = K := by
        rw [hpe]
        simp
        omega
      have hrec := ih (TabuList.push t m)
        (by rw [hpush]; exact hs)
        (by rw [hpl])
      rw [hrec, hpl, hpe, hxe]
      have harith1 : K + ms.length - K = ms.length := by omega
      rw [harith1]
      simp only [List.length_cons]
      have harith2 : e.length + 1 + (ms.length + 1) - K = ms.length + 1 := by
        omega
      rw [harith2]
      show ((e ++ [m]) ++ ms).drop ms.length
        = (x :: (e ++ m :: ms)).drop (ms.length + 1)
      rw [List.drop_succ_cons, List.append_assoc]
      rfl
    · have hpush : TabuList.push t m
          = { t with entries := t.entries ++ [m] } := by
        unfold TabuList.push
        rw [if_neg hfull]
      have hpe : (TabuList.push t m).entries = t.entries ++ [m] := by
        rw [hpush]
      have hne : t.entries.length ≠ K := by
        rw [hs] at hfull
        exact hfull
      have hrec := ih (TabuList.push t m)
        (by rw [hpush]; exact hs)
        (by rw [hpe]; simp; omega)
      rw [hrec, hpe]
      simp only [List.length_append, List.length_cons, List.length_singleton,
        List.length_nil]
      have harith : t.entries.length + 1 + ms.length - K
          = t.entries.length + (ms.length + 1) - K := by omega
      rw [harith, List.append_assoc]
      rfl

/-- C8: folding any insertion sequence into a fresh Tabu List of
capacity K (at least 1) keeps exactly the most recent K entries in
insertion order, so the length never exceeds K, and after K+1 pairwise
distinct insertions the first inserted Movement is no longer a member
under the structural membership test. -/
theorem tabu_list_capacity_fifo (K : Nat) (hK : 1 ≤ K) (ms : List Movement) :
    (tabuFold K ms).entries = ms.drop (ms.length - K) ∧
    (tabuFold K ms).entries.length ≤ K ∧
    (∀ m0 rest, ms = m0 :: rest → ms.Nodup → ms.length = K + 1 →
      tabu_contains (tabuFold K ms) m0 = false) := by
  have hmain : (tabuFold K ms).entries = ms.drop (ms.length - K) := by
    have hfold := tabu_push_foldl K hK ms (TabuList.mk K []) rfl (by simp)
    simpa using hfold
  refine ⟨hmain, ?_, ?_⟩
  · rw [hmain]
    simp only [List.length_drop]
    omega
  · intro m0 rest hms hnd hlen
    subst hms
    have hdrop : (tabuFold K (m0 :: rest)).entries = rest := by
      rw [hmain]
      have h1 : (m0 :: rest).length - K = 1 := by
        simp only [List.length_cons] at hlen ⊢
        omega
      rw [h1]
      simp
    simp only [tabu_contains, hdrop, decide_eq_false_iff_not]
    exact (List.nodup_cons.mp hnd).1

/-- Witness for C8 with K = 3 and the four pairwise distinct movements
of `msC8`: the list never exceeds 3 entries and the first insertion has
been evicted. -/
theorem tabu_list_capacity_fifo_witness :
    (tabuFold 3 msC8).entries.length ≤ 3 ∧
    tabu_contains (tabuFold 3 msC8) (Movement.mk [itemA1] []) = false := by
  refine ⟨(tabu_list_capacity_fifo 3 (by decide) msC8).2.1, ?_⟩
  exact (tabu_list_capacity_fifo 3 (by decide) msC8).2.2
    (Movement.mk [itemA1] [])
    [Movement.mk [itemC1] [], Movement.mk [] [itemA1], Movement.mk [] [itemC1]]
    rfl (by decide) (by decide)
